import Mathlib

/-!
Verification development for the phishing-live repository (Go).

The Go sources under cmd/server/main.go and cmd/trainer/main.go are shallowly
embedded below.  Strings are modelled as Lean strings manipulated through
their underlying character lists (Go strings are byte sequences; all string
constants involved in the verified properties are ASCII, where the two views
agree).  Go float64 score arithmetic is modelled over the rationals; the
decimal literals appearing in the source (0.40, 0.35, 0.25, percentages) are
exact in this model.  Go maps with int values are modelled either as tally
functions (String -> Nat) or as association lists, matching how each source
function consumes them.  Network effects (DNS lookups, the DNS-over-HTTPS
call, translation) are modelled as explicit inputs describing the observed
outcome of the call, which is how analyzeEmail and checkBlacklist consume
them.
-/

namespace Phish

/-! ### String primitives (Go strings package, ASCII fragment) -/

/-- Go strings.ToLower on one character, restricted to ASCII
(every constant compared case-insensitively in the sources is ASCII). -/
def lowerChar (c : Char) : Char :=
  if 'A' ≤ c ∧ c ≤ 'Z' then Char.ofNat (c.toNat + 32) else c

/-- Go strings.ToLower. -/
def lowerStr (s : String) : String := ⟨s.data.map lowerChar⟩

/-- Whether sub occurs at the beginning of s (Go strings.HasPrefix on lists). -/
def startsWithL (sub s : List Char) : Bool :=
  match sub, s with
  | [], _ => true
  | _ :: _, [] => false
  | a :: as, b :: bs => a = b && startsWithL as bs

/-- Whether sub occurs anywhere in s. -/
def containsL (s sub : List Char) : Bool :=
  if startsWithL sub s then true else
    match s with
    | [] => false
    | _ :: rest => containsL rest sub

/-- Go strings.Contains. -/
def goContains (s sub : String) : Bool := containsL s.data sub.data

/-- Go strings.HasSuffix. -/
def goHasSuffix (s suffix : String) : Bool := suffix.data.isSuffixOf s.data

/-- Go strings.Split with a one-character separator. -/
def splitChar (sep : Char) : List Char → List (List Char)
  | [] => [[]]
  | c :: rest =>
      let r := splitChar sep rest
      if c = sep then [] :: r
      else
        match r with
        | [] => [[c]]
        | x :: xs => (c :: x) :: xs

/-- Go unicode.IsSpace on the ASCII range (space, tab, newline, CR, VT, FF). -/
def isSpaceGo (c : Char) : Bool :=
  c = ' ' || c = '\t' || c = '\n' || c = '\r' || c = '\x0b' || c = '\x0c'

/-- Go strings.TrimSpace. -/
def trimSpace (s : String) : String :=
  ⟨((s.data.dropWhile isSpaceGo).reverse.dropWhile isSpaceGo).reverse⟩

/-- Index of the first occurrence of c (Go strings.Index with a one-char needle). -/
def firstIdx (c : Char) (cs : List Char) : Option Nat := cs.findIdx? (· = c)

/-- Index of the last occurrence of c (Go strings.LastIndex with a one-char needle). -/
def lastIdx (c : Char) (cs : List Char) : Option Nat :=
  (cs.reverse.findIdx? (· = c)).map (fun i => cs.length - 1 - i)

/-! ### Server helpers: extractEmail, getDomain, checkDomainTrust
(cmd/server/main.go lines 855-892) -/

/-- Go func extractEmail: the text between the first angle bracket and the
last closing angle bracket when both exist in the right order, trimmed;
otherwise the input unchanged. -/
def extractEmail (s : String) : String :=
  match firstIdx '<' s.data, lastIdx '>' s.data with
  | some st, some en =>
      if st < en then trimSpace ⟨(s.data.take en).drop (st + 1)⟩ else s
  | _, _ => s

/-- Go func getDomain: the lowercased part after the at sign when splitting
yields exactly two parts, otherwise the empty string. -/
def getDomain (email : String) : String :=
  let parts := splitChar '@' email.data
  if parts.length = 2 then ⟨(parts.getD 1 []).map lowerChar⟩ else ""

/-- The static allow-list in checkDomainTrust. -/
def trustedDomains : List String :=
  ["google.com", "gmail.com",
   "microsoft.com", "outlook.com", "hotmail.com",
   "apple.com", "icloud.com",
   "amazon.com",
   "linkedin.com",
   "paypal.com",
   "slack.com",
   "acquire.com",
   "reddit.com", "redditmail.com"]

/-- Go func checkDomainTrust: Trustworthy on an exact or dot-suffix match
against the allow-list, Neutral otherwise. -/
def checkDomainTrust (domain : String) : String :=
  if trustedDomains.any (fun t => domain = t || goHasSuffix domain ("." ++ t)) then
    "Trustworthy"
  else "Neutral"

/-! ### HTML tag stripping and tokenization -/

/-- The characters after the first closing angle bracket, when one exists. -/
def afterGt : List Char → Option (List Char)
  | [] => none
  | c :: rest => if c = '>' then some rest else afterGt rest

theorem afterGt_length {cs r : List Char} (h : afterGt cs = some r) :
    r.length < cs.length := by
  induction cs with
  | nil => simp [afterGt] at h
  | cons c rest ih =>
      by_cases hc : c = '>'
      · simp [afterGt, hc] at h
        simp [← h]
      · simp [afterGt, hc] at h
        have := ih h
        simp
        omega

/-- The regexp replacement of every tag match by a single space, applied by
both the server (analyzeEmail, sanitize pipeline) and the trainer
(analyzeCSV/analyzeJSON).  A tag match is an opening angle bracket up to the
next closing one; an opening bracket with no closing bracket after it stays. -/
def stripTags : List Char → List Char
  | [] => []
  | c :: rest =>
      if c = '<' then
        match h : afterGt rest with
        | some r => ' ' :: stripTags r
        | none => c :: rest
      else c :: stripTags rest
termination_by cs => cs.length
decreasing_by
  · have := afterGt_length h
    simp
    omega
  · simp

/-- Go strings tag stripping packaged on String. -/
def stripTagsS (s : String) : String := ⟨stripTags s.data⟩

/-- ASCII letter test (the trainer regex is [a-zA-Z]+; the server regex
accepts any Unicode letter, of which the ASCII fragment is modelled). -/
def isAsciiLetter (c : Char) : Bool :=
  ('a' ≤ c && c ≤ 'z') || ('A' ≤ c && c ≤ 'Z')

/-- Maximal runs of letters in a character list, with acc the current
run seen so far in reverse. -/
def letterRunsAux : List Char → List Char → List (List Char)
  | [], acc => if acc.isEmpty then [] else [acc.reverse]
  | c :: rest, acc =>
      if isAsciiLetter c then letterRunsAux rest (c :: acc)
      else if acc.isEmpty then letterRunsAux rest []
      else acc.reverse :: letterRunsAux rest []

/-- Maximal runs of letters (regexp FindAllString for a letter-class plus). -/
def letterRuns (s : String) : List String :=
  (letterRunsAux s.data []).map (fun r => ⟨r⟩)

/-- Server-side tokenization: regexp letter runs of length at least three
(cmd/server/main.go lines 505 and 569). -/
def tokenize3 (s : String) : List String :=
  (letterRuns s).filter (fun w => decide (3 ≤ w.data.length))

/-! ### Scorer data model (cmd/server/main.go) -/

/-- One persisted word-frequency entry (type WordFreq). -/
structure WordFreq where
  word : String
  count : Int
  percent : ℚ
deriving DecidableEq

/-- The loaded statistics record the scorer consumes (type LinguisticStats);
only the fields read by analyzeEmail are modelled. -/
structure LinguisticStats where
  totalEmails : Int := 0
  topBodyWords : List WordFreq := []
  topSubjectWords : List WordFreq := []

/-- The inputs analyzeEmail consumes for one email: the decoded header
values, the outcome of the MX lookup, the extracted body, and the outcome of
the optional translation step (none when the text is kept as is). -/
structure EmailIn where
  authResults : String := ""
  fromHeader : String := ""
  returnPath : String := ""
  replyTo : String := ""
  subject : String := ""
  hasMX : Bool := true
  body : String := ""
  translated : Option String := none

/-- The accumulated point totals (type ScoreBreakdown), over ℚ. -/
structure ScoreBreakdown where
  baseScore : ℚ := 0
  authFailPenalty : ℚ := 0
  authPassBonus : ℚ := 0
  mismatchPenalty : ℚ := 0
  keywordPenalty : ℚ := 0
  noMXPenalty : ℚ := 0
  disposablePenalty : ℚ := 0
  linguisticPenalty : ℚ := 0
  subjectLinguisticPenalty : ℚ := 0
  totalScore : ℚ := 0

/-- The fields of AnalysisResult the verified properties talk about. -/
structure AnalysisR where
  scamProbability : ℚ
  safeProbability : ℚ
  techScore : ℚ
  bodyScore : ℚ
  subjectScore : ℚ
  breakdown : ScoreBreakdown

/-- The suspicious subject keywords list (cmd/server/main.go line 419). -/
def suspiciousKeywords : List String :=
  ["urgent", "verify", "account", "suspended", "winner", "lottery",
   "password", "profit", "margin"]

/-- The ignored generic body words: the keys of the ignoredWords literal that
map to true (the keys account, click and security map to false, so the map
lookup in the loop treats them like absent keys). -/
def ignoredWords : List String :=
  ["email", "service", "customer", "access", "details", "information",
   "update", "support", "team", "contact", "please", "address", "view",
   "rights", "reserved"]

/-! ### Scorer: analyzeEmail components (cmd/server/main.go lines 353-698) -/

/-- Flat base penalty: 10 when the Authentication-Results header is absent. -/
def baseScoreOf (e : EmailIn) : ℚ :=
  if e.authResults = "" then 10 else 0

/-- Authentication failure penalties from the Authentication-Results header:
SPF fail or softfail 30, DKIM fail 30, DMARC fail 20. -/
def authFailPenaltyOf (e : EmailIn) : ℚ :=
  if e.authResults = "" then 0 else
    let lowerAuth := lowerStr e.authResults
    (if goContains lowerAuth "spf=fail" || goContains lowerAuth "spf=softfail"
     then 30 else 0)
    + (if goContains lowerAuth "dkim=fail" then 30 else 0)
    + (if goContains lowerAuth "dmarc=fail" then 20 else 0)

/-- Authentication pass bonuses: SPF 10, DKIM 10, DMARC 5; each one sits in
the else branch of the corresponding failure test. -/
def authPassBonusOf (e : EmailIn) : ℚ :=
  if e.authResults = "" then 0 else
    let lowerAuth := lowerStr e.authResults
    (if !(goContains lowerAuth "spf=fail" || goContains lowerAuth "spf=softfail")
        && goContains lowerAuth "spf=pass" then 10 else 0)
    + (if !goContains lowerAuth "dkim=fail"
        && goContains lowerAuth "dkim=pass" then 10 else 0)
    + (if !goContains lowerAuth "dmarc=fail"
        && goContains lowerAuth "dmarc=pass" then 5 else 0)

/-- The From domain as analyzeEmail computes it. -/
def fromDomainOf (e : EmailIn) : String := getDomain (extractEmail e.fromHeader)

/-- The From versus Return-Path mismatch flag (riskFactors.FromReturnPathDiff):
both extracted addresses non-empty, domains differ, Return-Path domain
non-empty.  The From domain itself is not tested for emptiness. -/
def rpMismatch (e : EmailIn) : Bool :=
  let fromAddr := extractEmail e.fromHeader
  let returnPathAddr := extractEmail e.returnPath
  fromAddr ≠ "" && returnPathAddr ≠ ""
    && fromDomainOf e ≠ getDomain returnPathAddr && getDomain returnPathAddr ≠ ""

/-- The Reply-To mismatch flag (riskFactors.ReplyToDiff): Reply-To header
non-empty, domains differ, Reply-To domain non-empty.  Neither the From
address nor the From domain is tested for emptiness. -/
def rtMismatch (e : EmailIn) : Bool :=
  e.replyTo ≠ ""
    && fromDomainOf e ≠ getDomain (extractEmail e.replyTo)
    && getDomain (extractEmail e.replyTo) ≠ ""

/-- Mismatch penalty: 25 for Return-Path, 20 for Reply-To. -/
def mismatchPenaltyOf (e : EmailIn) : ℚ :=
  (if rpMismatch e then 25 else 0) + (if rtMismatch e then 20 else 0)

/-- Keyword penalty: 15 per suspicious keyword contained in the lowercased
decoded subject. -/
def keywordPenaltyOf (e : EmailIn) : ℚ :=
  suspiciousKeywords.foldl
    (fun acc kw => if goContains (lowerStr e.subject) kw then acc + 15 else acc) 0

/-- No-MX penalty: 50, applied only inside the branch that runs the DNS
checks, namely when the From domain is non-empty. -/
def noMXPenaltyOf (e : EmailIn) : ℚ :=
  if fromDomainOf e ≠ "" then (if e.hasMX then 0 else 50) else 0

/-- The disposable penalty: the field is declared and summed but no statement
in cmd/server/main.go ever adds to it. -/
def disposablePenaltyOf (_e : EmailIn) : ℚ := 0

/-- The HTML-stripped body (cleanBody in analyzeEmail). -/
def cleanBodyOf (e : EmailIn) : String := stripTagsS e.body

/-- The text used for body word analysis: the translation result when the
translation step produced one, the stripped body otherwise. -/
def analysisTextOf (e : EmailIn) : String :=
  match e.translated with
  | some t => t
  | none => cleanBodyOf e

/-- Statistical body penalty: for each loaded top body word above the 7
percent threshold that occurs in the email word set and is not ignored,
half its percentage capped at 15. -/
def bodyStatsPenaltyOf (stats : LinguisticStats) (e : EmailIn) : ℚ :=
  if 0 < stats.topBodyWords.length then
    stats.topBodyWords.foldl
      (fun acc stat =>
        if stat.percent > 7 ∧ (tokenize3 (lowerStr (analysisTextOf e))).contains stat.word then
          if ignoredWords.contains stat.word then acc
          else acc + min (stat.percent / 2) 15
        else acc) 0
  else 0

/-- Count of uppercase ASCII letters in the stripped body. -/
def upperCountOf (e : EmailIn) : Nat :=
  ((cleanBodyOf e).data.filter (fun c => 'A' ≤ c && c ≤ 'Z')).length

/-- Count of ASCII letters in the stripped body. -/
def letterCountOf (e : EmailIn) : Nat :=
  ((cleanBodyOf e).data.filter
    (fun c => ('A' ≤ c && c ≤ 'Z') || ('a' ≤ c && c ≤ 'z'))).length

/-- The shouting score in percent, 0 when the stripped body has no letters. -/
def shoutingScoreOf (e : EmailIn) : ℚ :=
  if 0 < letterCountOf e then
    (upperCountOf e : ℚ) / (letterCountOf e : ℚ) * 100
  else 0

/-- Flat 15 point shouting penalty above the 25 percent threshold. -/
def shoutingPenaltyOf (e : EmailIn) : ℚ :=
  if 0 < letterCountOf e ∧ shoutingScoreOf e > 25 then 15 else 0

/-- Total body linguistic penalty (breakdown.LinguisticPenalty). -/
def linguisticPenaltyOf (stats : LinguisticStats) (e : EmailIn) : ℚ :=
  bodyStatsPenaltyOf stats e + shoutingPenaltyOf e

/-- Statistical subject penalty: a third of the percentage of each loaded top
subject word above the 5 percent threshold occurring in the subject word set,
skipping the single ignored technical word utf. -/
def subjectLinguisticPenaltyOf (stats : LinguisticStats) (e : EmailIn) : ℚ :=
  if 0 < stats.topSubjectWords.length then
    stats.topSubjectWords.foldl
      (fun acc stat =>
        if stat.percent > 5 ∧ (tokenize3 (lowerStr e.subject)).contains stat.word then
          if stat.word = "utf" then acc
          else acc + stat.percent / 3
        else acc) 0
  else 0

/-- The accumulated breakdown of one analyzeEmail call. -/
def breakdownOf (stats : LinguisticStats) (e : EmailIn) : ScoreBreakdown :=
  { baseScore := baseScoreOf e
    authFailPenalty := authFailPenaltyOf e
    authPassBonus := authPassBonusOf e
    mismatchPenalty := mismatchPenaltyOf e
    keywordPenalty := keywordPenaltyOf e
    noMXPenalty := noMXPenaltyOf e
    disposablePenalty := disposablePenaltyOf e
    linguisticPenalty := linguisticPenaltyOf stats e
    subjectLinguisticPenalty := subjectLinguisticPenaltyOf stats e
    totalScore := 0 }

/-- The final score calculation of analyzeEmail (lines 621-697): sequential
clamping of the three raw totals, linear rescaling, the weighted total capped
at 100, and the safe probability as its complement. -/
def analyzeEmail (stats : LinguisticStats) (e : EmailIn) : AnalysisR :=
  let b := breakdownOf stats e
  let techRaw0 := b.baseScore + b.authFailPenalty - b.authPassBonus
      + b.mismatchPenalty + b.noMXPenalty + b.disposablePenalty
  let techRaw1 := if techRaw0 < 0 then 0 else techRaw0
  let techRaw := if techRaw1 > 40 then 40 else techRaw1
  let techScore := techRaw / 40 * 100
  let bodyRaw0 := b.linguisticPenalty
  let bodyRaw := if bodyRaw0 > 50 then 50 else bodyRaw0
  let bodyScore := bodyRaw / 50 * 100
  let subjectRaw0 := b.keywordPenalty + b.subjectLinguisticPenalty
  let subjectRaw := if subjectRaw0 > 30 then 30 else subjectRaw0
  let subjectScore := subjectRaw / 30 * 100
  let total0 := techScore * 0.40 + bodyScore * 0.35 + subjectScore * 0.25
  let total := if total0 > 100 then 100 else total0
  { scamProbability := total
    safeProbability := 100 - total
    techScore := techScore
    bodyScore := bodyScore
    subjectScore := subjectScore
    breakdown := { b with totalScore := total } }

/-- Two-sided clamp, the form the specification states the sub-scores in. -/
def qclamp (x lo hi : ℚ) : ℚ := max lo (min x hi)

/-! ### Blacklist check (cmd/server/main.go lines 904-966)

The outcome of the outbound DNS-over-HTTPS call and of the direct system
lookup are inputs; checkBlacklist consumes them exactly as the Go control
flow does. -/

/-- Outcome of the client.Get call against the DoH resolver: a transport
error or a non-200 status, a 200 response whose body the JSON decoder
rejects, or a decoded body with its Status field and the Data strings of its
Answer records. -/
inductive DoHOutcome where
  | netFail
  | badBody
  | response (status : Int) (answerData : List String)
deriving DecidableEq

/-- Outcome of net.LookupHost: an error with its message, or the returned
address strings. -/
inductive SysLookup where
  | lookupErr (errMsg : String)
  | found (ips : List String)
deriving DecidableEq

/-- The Spamhaus open-resolver block sentinel address tested by both paths. -/
def blockSentinel : String := "127.255.255.254"

/-- The fallback branch of checkBlacklist (the body guarded by the Fallback
status, together with the final return Clean that an empty address list
falls through to). -/
def sysFallback (sys : SysLookup) : String :=
  match sys with
  | .lookupErr msg => if goContains msg "no such host" then "Clean" else "Error"
  | .found [] => "Clean"
  | .found (ip :: _) => if ip = blockSentinel then "Error (Blocked)" else "Listed"

/-- Go func checkBlacklist.  A decoded DoH body with Status 3 returns Clean;
Status 0 with a first answer different from the sentinel returns Listed;
Status 0 with the sentinel first answer, a transport error and a non-200
status set the Fallback flag and run the system lookup.  Every other decoded
body, and an undecodable body, falls through to the final return Clean
without running the fallback. -/
def checkBlacklist (doh : DoHOutcome) (sys : SysLookup) : String :=
  match doh with
  | .netFail => sysFallback sys
  | .badBody => "Clean"
  | .response status answers =>
      if status = 3 then "Clean"
      else if status = 0 ∧ answers ≠ [] then
        if answers.headD "" = blockSentinel then sysFallback sys else "Listed"
      else "Clean"

/-! ### Transfer-encoding decoding (cmd/server/main.go lines 781-791)

decodeContent dispatches on the lowercased Content-Transfer-Encoding value;
the quoted-printable branch wraps the Go standard library reader, which is
not part of this repository and is modelled here from its specified
behaviour: soft line breaks disappear, an equals sign followed by two hex
digits decodes to the escaped byte, an invalid escape passes the equals sign
through. -/

/-- Value of a hexadecimal digit character, accepting both cases. -/
def hexVal (c : Char) : Option Nat :=
  if '0' ≤ c ∧ c ≤ '9' then some (c.toNat - 48)
  else if 'A' ≤ c ∧ c ≤ 'F' then some (c.toNat - 55)
  else if 'a' ≤ c ∧ c ≤ 'f' then some (c.toNat - 87)
  else none

/-- Modelled from the spec: soft line break removal of the quoted-printable
reader (Go mime/quotedprintable, not part of this repository): an equals
sign directly before a line ending continues the line. -/
def qpStripSoft : List Char → List Char
  | [] => []
  | '=' :: '\r' :: '\n' :: rest => qpStripSoft rest
  | '=' :: '\n' :: rest => qpStripSoft rest
  | c :: rest => c :: qpStripSoft rest

/-- Modelled from the spec: escape decoding of the quoted-printable reader
(Go mime/quotedprintable, not part of this repository): an equals sign
followed by two hex digits becomes the escaped byte, otherwise it is kept
literally. -/
def qpDecodeCore : List Char → List Char
  | [] => []
  | '=' :: a :: b :: rest =>
      match hexVal a, hexVal b with
      | some x, some y => Char.ofNat (16 * x + y) :: qpDecodeCore rest
      | _, _ => '=' :: qpDecodeCore (a :: b :: rest)
  | c :: rest => c :: qpDecodeCore rest

/-- Quoted-printable decoding as decodeContent applies it. -/
def qpDecode (s : String) : String := ⟨qpDecodeCore (qpStripSoft s.data)⟩

/-- Go func decodeContent: quoted-printable decoding for that transfer
encoding, case-insensitively; every other value passes the content through
unchanged. -/
def decodeContent (content transferEncoding : String) : String :=
  if lowerStr transferEncoding = "quoted-printable" then qpDecode content
  else content

/-- Uppercase hexadecimal digit of a value below 16. -/
def hexDigitU (n : Nat) : Char :=
  if n < 10 then Char.ofNat (48 + n) else Char.ofNat (55 + n)

/-- Modelled from the spec: a quoted-printable encoder (the encoding side of
the round-trip property, not part of this repository).  Printable ASCII
characters other than the equals sign are emitted literally; every other
character becomes an equals-sign escape with two uppercase hex digits. -/
def qpEncodeChar (c : Char) : List Char :=
  if 33 ≤ c.toNat ∧ c.toNat ≤ 126 ∧ c.toNat ≠ 61 then [c]
  else ['=', hexDigitU (c.toNat / 16), hexDigitU (c.toNat % 16)]

/-- Modelled from the spec: quoted-printable encoding of a whole string. -/
def qpEncode (s : String) : String := ⟨(s.data.map qpEncodeChar).flatten⟩

/-- ASCII payload predicate of the round-trip property. -/
def allAscii (s : String) : Bool := s.data.all (fun c => c.toNat < 128)

/-! ### MIME body extraction (cmd/server/main.go lines 729-779)

A part is either a leaf with its declared media type, transfer encoding and
raw content, or a nested multipart with its successfully read sub-parts
(parseMultipart skips unreadable parts at reader level; the list holds the
parts the reader yields). -/

inductive MimePart where
  | leaf (mediaType : String) (cte : String) (content : String)
  | multi (parts : List MimePart)

/-- The content sniff applied to nested multipart results. -/
def looksHTML (s : String) : Bool :=
  goContains (lowerStr s) "<html" || goContains (lowerStr s) "<div"
    || goContains (lowerStr s) "<body"

mutual

/-- Go func parseMultipart: iterate the sibling parts accumulating an html
body and a text body, return the html body when non-empty, the text body
otherwise. -/
def parseMultipart (parts : List MimePart) : String :=
  let ht := foldParts parts "" ""
  if ht.1 ≠ "" then ht.1 else ht.2
termination_by (sizeOf parts, 2)
decreasing_by
  simp_wf
  exact Prod.Lex.right _ (by omega)

/-- The part loop of parseMultipart with its two accumulators, one loop
iteration at a time. -/
def foldParts : List MimePart → String → String → String × String
  | [], htmlBody, textBody => (htmlBody, textBody)
  | p :: rest, htmlBody, textBody =>
      let ht := stepPart p htmlBody textBody
      foldParts rest ht.1 ht.2
termination_by parts _ _ => (sizeOf parts, 1)
decreasing_by
  all_goals simp_wf
  · exact Prod.Lex.left _ _ (by omega)
  · exact Prod.Lex.left _ _ (by omega)

/-- The body of the part loop.  A nested multipart is recursed into: a
sub-result sniffed as HTML overwrites the html body, any other sub-result
fills the text body only when it is still empty.  A declared text/html leaf
overwrites the html body with its decoded content; a declared text/plain
leaf overwrites the text body with its decoded content; any other leaf is
skipped. -/
def stepPart : MimePart → String → String → String × String
  | .multi children, htmlBody, textBody =>
      let subContent := parseMultipart children
      if looksHTML subContent then (subContent, textBody)
      else if textBody = "" then (htmlBody, subContent)
      else (htmlBody, textBody)
  | .leaf mediaType cte content, htmlBody, textBody =>
      if mediaType = "text/html" then (decodeContent content cte, textBody)
      else if mediaType = "text/plain" then (htmlBody, decodeContent content cte)
      else (htmlBody, textBody)
termination_by p _ _ => (sizeOf p, 0)
decreasing_by
  simp_wf
  exact Prod.Lex.left _ _ (by omega)

end

/-- Whether a sibling part is discovered as HTML: a declared text/html leaf,
or a nested multipart whose recursive result is sniffed as HTML. -/
def discoveredHTML : MimePart → Bool
  | .leaf mediaType _ _ => mediaType = "text/html"
  | .multi children => looksHTML (parseMultipart children)

/-- Whether a sibling part is a declared text/plain leaf. -/
def isPlainLeaf : MimePart → Bool
  | .leaf mediaType _ _ => mediaType = "text/plain"
  | .multi _ => false

/-! ### Trainer (cmd/trainer/main.go) -/

/-- The stopWords literal of the trainer (all keys map to true). -/
def stopWords : List String :=
  ["the", "be", "to", "of", "and",
   "a", "in", "that", "have", "i",
   "it", "for", "not", "on", "with",
   "he", "as", "you", "do", "at",
   "this", "but", "his", "by", "from",
   "they", "we", "say", "her", "she",
   "or", "an", "will", "my", "one",
   "all", "would", "there", "their", "what",
   "so", "up", "out", "if", "about",
   "who", "get", "which", "go", "me",
   "when", "make", "can", "like", "time",
   "no", "just", "him", "know", "take",
   "people", "into", "year", "your", "good",
   "some", "could", "them", "see", "other",
   "than", "then", "now", "look", "only",
   "come", "its", "over", "think", "also",
   "back", "after", "use", "two", "how",
   "our", "work", "first", "well", "way",
   "even", "new", "want", "because", "any",
   "these", "give", "day", "most", "us",
   "is", "are", "was", "were", "been", "has",
   "re", "fw", "cc", "pm", "am", "subject", "forwarded",
   "original", "message", "sent", "date",
   "mail", "mailto", "image", "attached", "file"]

/-- The phishingIrrelevant literal of the trainer (all keys map to true). -/
def phishingIrrelevant : List String :=
  ["dear", "please", "thank", "thanks", "regards",
   "sincerely", "hello", "hi", "sir", "madam",
   "jose", "monkey", "john", "james", "david",
   "michael", "robert", "william", "mary", "patricia",
   "com", "org", "net", "gov", "edu", "mil",
   "www", "http", "https", "html", "php",
   "here", "below", "above", "following", "attached",
   "received", "sent", "reply", "forward",
   "today", "tomorrow", "yesterday", "soon",
   "may", "might", "must", "should", "would",
   "contact", "questions", "help", "support",
   "best", "team", "company",
   "one", "two", "three", "four", "five"]

/-- Go func isNumeric: every character is an ASCII digit. -/
def isNumeric (s : String) : Bool := s.data.all (fun c => '0' ≤ c && c ≤ '9')

/-- The distinct body tokens of one CSV row (analyzeCSV lines 758-777):
strip tags, lowercase, split on the letter regex, drop tokens shorter than
three characters, numeric tokens, tokens absent from a non-empty reference
dictionary, stop words and dataset-artifact words; each surviving token
counts once per document. -/
def csvBodyTokenSet (dict : List String) (bodyText : String) : List String :=
  let cleanBody := stripTagsS bodyText
  let bodyLower := lowerStr cleanBody
  ((letterRuns bodyLower).filter (fun w =>
      !(w.data.length < 3) && !isNumeric w
        && (dict.isEmpty || dict.contains w)
        && !stopWords.contains w
        && !phishingIrrelevant.contains w)).eraseDups

/-- The distinct subject tokens of one CSV row (analyzeCSV lines 779-794):
lowercase, split on the letter regex, drop tokens shorter than two
characters, numeric tokens, stop words and dataset-artifact words; the
dictionary filter is not applied to subjects. -/
def csvSubjTokenSet (subjectText : String) : List String :=
  let subjLower := lowerStr subjectText
  ((letterRuns subjLower).filter (fun w =>
      !(w.data.length < 2) && !isNumeric w
        && !stopWords.contains w
        && !phishingIrrelevant.contains w)).eraseDups

/-- The distinct tokens of one JSON entry (analyzeJSON lines 294-327):
strip tags, lowercase, letter regex, drop tokens shorter than three
characters, numeric tokens, tokens absent from a non-empty dictionary and
stop words; the dataset-artifact list is not consulted on this path. -/
def jsonTokenSet (dict : List String) (text : String) : List String :=
  let cleanText := stripTagsS text
  let textLower := lowerStr cleanText
  ((letterRuns textLower).filter (fun w =>
      !(w.data.length < 3) && !isNumeric w
        && (dict.isEmpty || dict.contains w)
        && !stopWords.contains w)).eraseDups

/-- Incrementing a document-frequency tally once for every member of a
token set (the map increment loop over a uniqueness map). -/
def bumpDF (m : String → Nat) (ws : List String) : String → Nat :=
  fun x => if ws.contains x then m x + 1 else m x

/-- The per-class accumulators of analyzeCSV that the verified invariants
concern: the two email counters and the four document-frequency tallies. -/
structure CsvAgg where
  safeCount : Nat := 0
  scamCount : Nat := 0
  safeBodyDF : String → Nat := fun _ => 0
  scamBodyDF : String → Nat := fun _ => 0
  safeSubjDF : String → Nat := fun _ => 0
  scamSubjDF : String → Nat := fun _ => 0

/-- The sniffed or defaulted column indices of analyzeCSV; the subject index
may be the Go sentinel -1 for absent. -/
structure CsvCols where
  labelIdx : Nat
  bodyIdx : Nat
  subjectIdx : Int

/-- The row guard of the CSV loop: rows with too few columns are skipped. -/
def csvRowValid (cols : CsvCols) (record : List String) : Bool :=
  !(record.length ≤ cols.labelIdx || record.length ≤ cols.bodyIdx)

/-- The label interpretation of analyzeCSV: the trimmed label column equals
1, or lowercases to phish or spam. -/
def csvIsScam (cols : CsvCols) (record : List String) : Bool :=
  let labelStr := trimSpace (record.getD cols.labelIdx "")
  labelStr = "1" || lowerStr labelStr = "phish" || lowerStr labelStr = "spam"

/-- One iteration of the CSV row loop (analyzeCSV lines 729-851), restricted
to the accumulators the invariants concern: skip invalid rows; otherwise
classify the row, increment exactly one class counter, and bump that class's
body and subject document frequencies once per distinct token. -/
def csvStep (dict : List String) (cols : CsvCols) (st : CsvAgg)
    (record : List String) : CsvAgg :=
  if ¬csvRowValid cols record then st else
  let subjectText :=
    if cols.subjectIdx ≠ -1 ∧ cols.subjectIdx < (record.length : Int) then
      record.getD cols.subjectIdx.toNat ""
    else ""
  let bodyText := record.getD cols.bodyIdx ""
  let uniqueBody := csvBodyTokenSet dict bodyText
  let uniqueSubj := csvSubjTokenSet subjectText
  if csvIsScam cols record then
    { st with
        scamCount := st.scamCount + 1
        scamBodyDF := bumpDF st.scamBodyDF uniqueBody
        scamSubjDF := bumpDF st.scamSubjDF uniqueSubj }
  else
    { st with
        safeCount := st.safeCount + 1
        safeBodyDF := bumpDF st.safeBodyDF uniqueBody
        safeSubjDF := bumpDF st.safeSubjDF uniqueSubj }

/-- The whole CSV aggregation pass over the successfully read records. -/
def csvAggregate (dict : List String) (cols : CsvCols)
    (rows : List (List String)) : CsvAgg :=
  rows.foldl (csvStep dict cols) {}

/-- One decoded row of the JSON dataset (type JSONEntry). -/
structure JSONEntry where
  text : String
  label : Int

/-- The per-class accumulators of analyzeJSON that the invariants concern. -/
structure JsonAgg where
  safeCount : Nat := 0
  scamCount : Nat := 0
  safeDF : String → Nat := fun _ => 0
  scamDF : String → Nat := fun _ => 0

/-- One iteration of the JSON entry loop (analyzeJSON lines 283-356),
restricted to the accumulators the invariants concern: label 1 rows go to
the scam class, every other label to the safe class. -/
def jsonStep (dict : List String) (st : JsonAgg) (e : JSONEntry) : JsonAgg :=
  let uniqueWords := jsonTokenSet dict e.text
  if e.label = 1 then
    { st with scamCount := st.scamCount + 1, scamDF := bumpDF st.scamDF uniqueWords }
  else
    { st with safeCount := st.safeCount + 1, safeDF := bumpDF st.safeDF uniqueWords }

/-- The whole JSON aggregation pass over the successfully decoded entries. -/
def jsonAggregate (dict : List String) (entries : List JSONEntry) : JsonAgg :=
  entries.foldl (jsonStep dict) {}

/-- Go closure getTopWords (analyzeCSV lines 857-876, identical in
analyzeJSON lines 363-382): nil for an empty class; otherwise keep the map
entries with count above two, attach the percentage of the class total,
sort by percentage descending and keep at most the first hundred.  The map
is modelled by the list of its entries. -/
def getTopWords (counts : List (String × Int)) (total : Int) : List WordFreq :=
  if total = 0 then [] else
    let wordList := (counts.filter (fun p => 2 < p.2)).map
      (fun p => { word := p.1, count := p.2,
                  percent := (p.2 : ℚ) / (total : ℚ) * 100 : WordFreq })
    let sorted := wordList.mergeSort (fun a b => decide (b.percent ≤ a.percent))
    sorted.take 100

/-! ## Theorems -/

/-! ### Shared arithmetic lemmas about the clamping pattern of analyzeEmail -/

theorem foldl_le_of_step_le {α : Type} (g : ℚ → α → ℚ)
    (hmono : ∀ acc a, acc ≤ g acc a) :
    ∀ (l : List α) (init : ℚ), init ≤ l.foldl g init := by
  intro l
  induction l with
  | nil => intro init; simp
  | cons a rest ih => intro init; exact le_trans (hmono init a) (ih (g init a))

theorem keywordPenaltyOf_nonneg (e : EmailIn) : 0 ≤ keywordPenaltyOf e := by
  unfold keywordPenaltyOf
  apply foldl_le_of_step_le
  intro acc a
  split_ifs <;> linarith

theorem bodyStatsPenaltyOf_nonneg (stats : LinguisticStats) (e : EmailIn) :
    0 ≤ bodyStatsPenaltyOf stats e := by
  unfold bodyStatsPenaltyOf
  split_ifs with h
  · apply foldl_le_of_step_le
    intro acc a
    split_ifs with h1 h2
    · linarith
    · have : (0 : ℚ) ≤ min (a.percent / 2) 15 := le_min (by linarith [h1.1]) (by norm_num)
      linarith
    · linarith
  · norm_num

theorem shoutingPenaltyOf_nonneg (e : EmailIn) : 0 ≤ shoutingPenaltyOf e := by
  unfold shoutingPenaltyOf
  split_ifs <;> norm_num

theorem linguisticPenaltyOf_nonneg (stats : LinguisticStats) (e : EmailIn) :
    0 ≤ linguisticPenaltyOf stats e := by
  unfold linguisticPenaltyOf
  have h1 := bodyStatsPenaltyOf_nonneg stats e
  have h2 := shoutingPenaltyOf_nonneg e
  linarith

theorem subjectLinguisticPenaltyOf_nonneg (stats : LinguisticStats) (e : EmailIn) :
    0 ≤ subjectLinguisticPenaltyOf stats e := by
  unfold subjectLinguisticPenaltyOf
  split_ifs with h
  · apply foldl_le_of_step_le
    intro acc a
    split_ifs with h1 h2
    · linarith
    · linarith [h1.1]
    · linarith
  · norm_num

theorem seq_clamp_eq (x hi : ℚ) (hhi : 0 ≤ hi) :
    (if (if x < 0 then 0 else x) > hi then hi else if x < 0 then 0 else x)
      = qclamp x 0 hi := by
  simp only [qclamp, max_def, min_def]
  split_ifs <;> linarith

theorem min_clamp_eq (x hi : ℚ) (hx : 0 ≤ x) (hhi : 0 ≤ hi) :
    (if x > hi then hi else x) = qclamp x 0 hi := by
  simp only [qclamp, max_def, min_def]
  split_ifs <;> linarith

theorem if_gt_eq_min (x c : ℚ) : (if x > c then c else x) = min x c := by
  simp only [min_def]
  split_ifs <;> linarith

theorem seq_clamp_bounds (x hi : ℚ) (hhi : 0 ≤ hi) :
    0 ≤ (if (if x < 0 then 0 else x) > hi then hi else if x < 0 then 0 else x)
    ∧ (if (if x < 0 then 0 else x) > hi then hi else if x < 0 then 0 else x) ≤ hi := by
  split_ifs <;> constructor <;> linarith

theorem min_clamp_bounds (x hi : ℚ) (hx : 0 ≤ x) (hhi : 0 ≤ hi) :
    0 ≤ (if x > hi then hi else x) ∧ (if x > hi then hi else x) ≤ hi := by
  split_ifs <;> constructor <;> linarith

theorem rescale_bounds (t hi : ℚ) (h0 : 0 ≤ t) (h1 : t ≤ hi) (hpos : 0 < hi) :
    0 ≤ t / hi * 100 ∧ t / hi * 100 ≤ 100 := by
  constructor
  · positivity
  · rw [div_mul_eq_mul_div, div_le_iff₀ hpos]
    nlinarith

/-! ### C1 -/

/-- C1: the score aggregator computes Technical as
clamp(base - authBonus + authFail + mismatch + noMX + disposable, 0, 40)
rescaled by 100/40, Body as clamp(linguisticPenalty, 0, 50) rescaled by
100/50, Subject as clamp(keywordPenalty + subjectLinguisticPenalty, 0, 30)
rescaled by 100/30, and for every email the final scam probability equals
0.40 Technical + 0.35 Body + 0.25 Subject clamped to 100, with the safe
probability reported as 100 minus that total. -/
theorem score_aggregator_formula (stats : LinguisticStats) (e : EmailIn) :
    (analyzeEmail stats e).techScore
      = qclamp ((analyzeEmail stats e).breakdown.baseScore
          - (analyzeEmail stats e).breakdown.authPassBonus
          + (analyzeEmail stats e).breakdown.authFailPenalty
          + (analyzeEmail stats e).breakdown.mismatchPenalty
          + (analyzeEmail stats e).breakdown.noMXPenalty
          + (analyzeEmail stats e).breakdown.disposablePenalty) 0 40 / 40 * 100
    ∧ (analyzeEmail stats e).bodyScore
      = qclamp (analyzeEmail stats e).breakdown.linguisticPenalty 0 50 / 50 * 100
    ∧ (analyzeEmail stats e).subjectScore
      = qclamp ((analyzeEmail stats e).breakdown.keywordPenalty
          + (analyzeEmail stats e).breakdown.subjectLinguisticPenalty) 0 30 / 30 * 100
    ∧ (analyzeEmail stats e).scamProbability
      = min (0.40 * (analyzeEmail stats e).techScore
          + 0.35 * (analyzeEmail stats e).bodyScore
          + 0.25 * (analyzeEmail stats e).subjectScore) 100
    ∧ (analyzeEmail stats e).safeProbability
      = 100 - (analyzeEmail stats e).scamProbability := by
  have hL := linguisticPenaltyOf_nonneg stats e
  have hK := keywordPenaltyOf_nonneg e
  have hS := subjectLinguisticPenaltyOf_nonneg stats e
  simp only [analyzeEmail, breakdownOf]
  refine ⟨?_, ?_, ?_, ?_, ?_⟩
  · rw [seq_clamp_eq _ 40 (by norm_num)]
    exact congrArg (fun z => qclamp z 0 40 / 40 * 100) (by ring)
  · rw [min_clamp_eq _ 50 hL (by norm_num)]
  · rw [min_clamp_eq _ 30 (by linarith) (by norm_num)]
  · rw [if_gt_eq_min]
    exact congrArg (fun z => min z 100) (by ring)
  · trivial

/-! ### C9 -/

/-- C9: for every input email and every loaded statistics table, each of the
three sub-scores lies in the interval from 0 to 100; since the weights sum
to one the weighted total already lies in that interval before the final
clamp, so the clamp at 100 is never active and the scam probability equals
the weighted sum exactly; the safe probability is its complement and also
lies in the interval. -/
theorem scores_bounded (stats : LinguisticStats) (e : EmailIn) :
    (0 ≤ (analyzeEmail stats e).techScore ∧ (analyzeEmail stats e).techScore ≤ 100)
    ∧ (0 ≤ (analyzeEmail stats e).bodyScore ∧ (analyzeEmail stats e).bodyScore ≤ 100)
    ∧ (0 ≤ (analyzeEmail stats e).subjectScore ∧ (analyzeEmail stats e).subjectScore ≤ 100)
    ∧ (analyzeEmail stats e).scamProbability
        = 0.40 * (analyzeEmail stats e).techScore
          + 0.35 * (analyzeEmail stats e).bodyScore
          + 0.25 * (analyzeEmail stats e).subjectScore
    ∧ (0 ≤ (analyzeEmail stats e).scamProbability
        ∧ (analyzeEmail stats e).scamProbability ≤ 100)
    ∧ (analyzeEmail stats e).safeProbability
        = 100 - (analyzeEmail stats e).scamProbability
    ∧ (0 ≤ (analyzeEmail stats e).safeProbability
        ∧ (analyzeEmail stats e).safeProbability ≤ 100) := by
  have hL := linguisticPenaltyOf_nonneg stats e
  have hK := keywordPenaltyOf_nonneg e
  have hS := subjectLinguisticPenaltyOf_nonneg stats e
  simp only [analyzeEmail, breakdownOf]
  have htech := seq_clamp_bounds (baseScoreOf e + authFailPenaltyOf e - authPassBonusOf e
      + mismatchPenaltyOf e + noMXPenaltyOf e + disposablePenaltyOf e) 40 (by norm_num)
  have htechS := rescale_bounds _ 40 htech.1 htech.2 (by norm_num)
  have hbody := min_clamp_bounds (linguisticPenaltyOf stats e) 50 hL (by norm_num)
  have hbodyS := rescale_bounds _ 50 hbody.1 hbody.2 (by norm_num)
  have hsubj := min_clamp_bounds (keywordPenaltyOf e + subjectLinguisticPenaltyOf stats e) 30
      (by linarith) (by norm_num)
  have hsubjS := rescale_bounds _ 30 hsubj.1 hsubj.2 (by norm_num)
  have hsum_le :
      (if (if baseScoreOf e + authFailPenaltyOf e - authPassBonusOf e
              + mismatchPenaltyOf e + noMXPenaltyOf e + disposablePenaltyOf e < 0 then 0
            else baseScoreOf e + authFailPenaltyOf e - authPassBonusOf e
              + mismatchPenaltyOf e + noMXPenaltyOf e + disposablePenaltyOf e) > 40 then 40
          else if baseScoreOf e + authFailPenaltyOf e - authPassBonusOf e
              + mismatchPenaltyOf e + noMXPenaltyOf e + disposablePenaltyOf e < 0 then 0
            else baseScoreOf e + authFailPenaltyOf e - authPassBonusOf e
              + mismatchPenaltyOf e + noMXPenaltyOf e + disposablePenaltyOf e) / 40 * 100 * 0.40
        + (if linguisticPenaltyOf stats e > 50 then 50
            else linguisticPenaltyOf stats e) / 50 * 100 * 0.35
        + (if keywordPenaltyOf e + subjectLinguisticPenaltyOf stats e > 30 then 30
            else keywordPenaltyOf e + subjectLinguisticPenaltyOf stats e) / 30 * 100 * 0.25
        ≤ 100 := by
    nlinarith [htechS.1, htechS.2, hbodyS.1, hbodyS.2, hsubjS.1, hsubjS.2]
  refine ⟨⟨htechS.1, htechS.2⟩, ⟨hbodyS.1, hbodyS.2⟩, ⟨hsubjS.1, hsubjS.2⟩, ?_, ?_, trivial, ?_⟩
  · rw [if_neg (by push_neg; exact hsum_le)]
    ring
  · rw [if_neg (by push_neg; exact hsum_le)]
    constructor
    · nlinarith [htechS.1, hbodyS.1, hsubjS.1]
    · exact hsum_le
  · rw [if_neg (by push_neg; exact hsum_le)]
    constructor
    · nlinarith [hsum_le]
    · nlinarith [htechS.1, hbodyS.1, hsubjS.1]

/-! ### C7 -/

/-- C7: for every email whose headers contain no Authentication-Results
header and which triggers no other technical signal (no domain mismatch,
MX records present; the disposable penalty is never added by the code), the
Technical sub-score equals exactly 25, the flat base penalty of 10 points
clamped to the 0 to 40 range and rescaled by 100/40. -/
theorem tech_score_no_auth_header (stats : LinguisticStats) (e : EmailIn)
    (hauth : e.authResults = "") (hmx : e.hasMX = true)
    (hrp : rpMismatch e = false) (hrt : rtMismatch e = false) :
    (analyzeEmail stats e).techScore = 25
    ∧ (analyzeEmail stats e).techScore = qclamp 10 0 40 / 40 * 100 := by
  have hbase : baseScoreOf e = 10 := by simp [baseScoreOf, hauth]
  have hfail : authFailPenaltyOf e = 0 := by simp [authFailPenaltyOf, hauth]
  have hbonus : authPassBonusOf e = 0 := by simp [authPassBonusOf, hauth]
  have hmm : mismatchPenaltyOf e = 0 := by simp [mismatchPenaltyOf, hrp, hrt]
  have hnomx : noMXPenaltyOf e = 0 := by
    simp only [noMXPenaltyOf, hmx]
    split_ifs <;> rfl
  have hdisp : disposablePenaltyOf e = 0 := rfl
  constructor
  · simp only [analyzeEmail, breakdownOf, hbase, hfail, hbonus, hmm, hnomx, hdisp]
    norm_num
  · simp only [analyzeEmail, breakdownOf, hbase, hfail, hbonus, hmm, hnomx, hdisp, qclamp]
    norm_num

/-- Closed instance of the C7 theorem: the default email input has no
Authentication-Results header, a successful MX lookup and no mismatch
flags, and its Technical sub-score is 25. -/
theorem tech_score_no_auth_header_witness :
    rpMismatch {} = false ∧ rtMismatch {} = false
    ∧ (analyzeEmail {} {}).techScore = 25 :=
  ⟨by decide, by decide,
    (tech_score_no_auth_header {} {} rfl rfl (by decide) (by decide)).1⟩

/-! ### C4 -/

/-- C4 counterexample: a From header whose extracted address has no at sign
has an empty From domain, yet the Return-Path mismatch penalty of 25 is
still added, because the code tests only the Return-Path domain for
non-emptiness. -/
theorem mismatch_empty_from_domain_penalized :
    fromDomainOf { fromHeader := "<bob>", returnPath := "<a@x.com>" } = ""
    ∧ rpMismatch { fromHeader := "<bob>", returnPath := "<a@x.com>" } = true
    ∧ (analyzeEmail {} { fromHeader := "<bob>", returnPath := "<a@x.com>" }).breakdown.mismatchPenalty
        = 25 := by
  refine ⟨by decide, by decide, ?_⟩
  simp only [analyzeEmail, breakdownOf, mismatchPenaltyOf]
  rw [show rpMismatch { fromHeader := "<bob>", returnPath := "<a@x.com>" } = true by decide,
      show rtMismatch { fromHeader := "<bob>", returnPath := "<a@x.com>" } = false by decide]
  norm_num

/-- C4 amended: the Return-Path penalty of 25 is added exactly when both
extracted addresses are non-empty, the two domains differ and the
Return-Path domain is non-empty; the Reply-To penalty of 20 exactly when the
Reply-To header is non-empty, the two domains differ and the Reply-To domain
is non-empty.  Emptiness of the From domain itself does not prevent either
penalty. -/
theorem mismatch_penalty_characterization (stats : LinguisticStats) (e : EmailIn) :
    (analyzeEmail stats e).breakdown.mismatchPenalty
      = (if extractEmail e.fromHeader ≠ "" ∧ extractEmail e.returnPath ≠ ""
            ∧ fromDomainOf e ≠ getDomain (extractEmail e.returnPath)
            ∧ getDomain (extractEmail e.returnPath) ≠ "" then 25 else 0)
        + (if e.replyTo ≠ "" ∧ fromDomainOf e ≠ getDomain (extractEmail e.replyTo)
            ∧ getDomain (extractEmail e.replyTo) ≠ "" then 20 else 0) := by
  have h1 : rpMismatch e = true
      ↔ (extractEmail e.fromHeader ≠ "" ∧ extractEmail e.returnPath ≠ ""
          ∧ fromDomainOf e ≠ getDomain (extractEmail e.returnPath)
          ∧ getDomain (extractEmail e.returnPath) ≠ "") := by
    simp only [rpMismatch, Bool.and_eq_true, decide_eq_true_eq, ne_eq]
    tauto
  have h2 : rtMismatch e = true
      ↔ (e.replyTo ≠ "" ∧ fromDomainOf e ≠ getDomain (extractEmail e.replyTo)
          ∧ getDomain (extractEmail e.replyTo) ≠ "") := by
    simp only [rtMismatch, Bool.and_eq_true, decide_eq_true_eq, ne_eq]
    tauto
  simp only [analyzeEmail, breakdownOf, mismatchPenaltyOf, h1, h2]

/-! ### C10 -/

/-- C10: checkDomainTrust returns Trustworthy exactly when the domain equals
an allow-list entry or ends with a dot followed by an entry, and Neutral in
every other case; it never returns the Suspicious or Unknown values the
RiskFactors field comment advertises, and a domain merely containing a
trusted name without a dot boundary is Neutral. -/
theorem domain_trust_dichotomy (domain : String) :
    (checkDomainTrust domain = "Trustworthy"
      ↔ ∃ t ∈ trustedDomains, domain = t ∨ goHasSuffix domain ("." ++ t) = true)
    ∧ (checkDomainTrust domain = "Trustworthy" ∨ checkDomainTrust domain = "Neutral")
    ∧ checkDomainTrust "notgoogle.com" = "Neutral" := by
  refine ⟨?_, ?_, by decide⟩
  · unfold checkDomainTrust
    by_cases h : (trustedDomains.any
        (fun t => domain = t || goHasSuffix domain ("." ++ t))) = true
    · rw [if_pos h]
      simp only [List.any_eq_true, Bool.or_eq_true, decide_eq_true_eq] at h
      exact iff_of_true rfl h
    · rw [if_neg h]
      simp only [List.any_eq_true, Bool.or_eq_true, decide_eq_true_eq] at h
      exact iff_of_false (by decide) h
  · unfold checkDomainTrust
    split_ifs <;> simp

/-! ### C3 -/

/-- C3 counterexample: a DoH response with status 200 whose body the JSON
decoder rejects does not trigger the fallback system lookup; the function
returns Clean even when the system lookup would have answered Listed. -/
theorem blacklist_undecodable_no_fallback :
    checkBlacklist .badBody (.found ["93.184.216.34"]) = "Clean"
    ∧ sysFallback (.found ["93.184.216.34"]) = "Listed"
    ∧ checkBlacklist .badBody (.found ["93.184.216.34"])
        ≠ sysFallback (.found ["93.184.216.34"]) :=
  ⟨by decide, by decide, by decide⟩

/-- C3 amended: NXDOMAIN (Status 3) yields Clean; a Status 0 answer whose
first address differs from the resolver block sentinel yields Listed; the
sentinel first address, a transport error and a non-200 status fall back to
the direct system lookup, interpreted as NXDOMAIN to Clean, found to
Listed, sentinel to an error value; but an undecodable 200 body, and any
decoded body that is neither Status 3 nor Status 0 with answers, yield
Clean directly without consulting the fallback. -/
theorem blacklist_interpretation (sys : SysLookup) :
    (∀ ans : List String, checkBlacklist (.response 3 ans) sys = "Clean")
    ∧ (∀ (ip : String) (rest : List String), ip ≠ blockSentinel →
        checkBlacklist (.response 0 (ip :: rest)) sys = "Listed")
    ∧ (∀ rest : List String,
        checkBlacklist (.response 0 (blockSentinel :: rest)) sys = sysFallback sys)
    ∧ checkBlacklist .netFail sys = sysFallback sys
    ∧ checkBlacklist .badBody sys = "Clean"
    ∧ (∀ (st : Int) (ans : List String), st ≠ 3 → ¬(st = 0 ∧ ans ≠ []) →
        checkBlacklist (.response st ans) sys = "Clean")
    ∧ (∀ msg : String, goContains msg "no such host" = true →
        sysFallback (.lookupErr msg) = "Clean")
    ∧ (∀ msg : String, goContains msg "no such host" = false →
        sysFallback (.lookupErr msg) = "Error")
    ∧ sysFallback (.found []) = "Clean"
    ∧ (∀ rest : List String,
        sysFallback (.found (blockSentinel :: rest)) = "Error (Blocked)")
    ∧ (∀ (ip : String) (rest : List String), ip ≠ blockSentinel →
        sysFallback (.found (ip :: rest)) = "Listed") := by
  refine ⟨?_, ?_, ?_, rfl, rfl, ?_, ?_, ?_, rfl, ?_, ?_⟩
  · intro ans; simp [checkBlacklist]
  · intro ip rest hip; simp [checkBlacklist, hip]
  · intro rest; simp [checkBlacklist]
  · intro st ans h3 h0
    simp only [checkBlacklist]
    rw [if_neg h3, if_neg h0]
  · intro msg hmsg; simp [sysFallback, hmsg]
  · intro msg hmsg; simp [sysFallback, hmsg]
  · intro rest; simp [sysFallback]
  · intro ip rest hip; simp [sysFallback, hip]

/-- Closed instance of the C3 amended theorem: a non-sentinel first answer
is Listed, and a no-such-host fallback error is Clean. -/
theorem blacklist_interpretation_witness :
    ("93.184.216.34" : String) ≠ blockSentinel
    ∧ checkBlacklist (.response 0 ["93.184.216.34"]) (.found []) = "Listed"
    ∧ goContains "lookup x: no such host" "no such host" = true
    ∧ sysFallback (.lookupErr "lookup x: no such host") = "Clean" :=
  ⟨by decide,
   (blacklist_interpretation (.found [])).2.1 "93.184.216.34" [] (by decide),
   by decide,
   (blacklist_interpretation (.found [])).2.2.2.2.2.2.1 "lookup x: no such host" (by decide)⟩

/-! ### C8 -/

theorem hexDigit_facts : ∀ n < 16,
    hexVal (hexDigitU n) = some n ∧ hexDigitU n ≠ '\r' ∧ hexDigitU n ≠ '\n'
      ∧ hexDigitU n ≠ '=' := by decide

theorem qpStripSoft_cons (c : Char) (rest : List Char) (hc : c ≠ '=') :
    qpStripSoft (c :: rest) = c :: qpStripSoft rest := by
  rw [qpStripSoft.eq_def]
  split <;> simp_all

theorem qpStripSoft_eq_cons (d : Char) (rest : List Char)
    (h1 : d ≠ '\r') (h2 : d ≠ '\n') :
    qpStripSoft ('=' :: d :: rest) = '=' :: qpStripSoft (d :: rest) := by
  rw [qpStripSoft.eq_def]
  split <;> try simp_all
  all_goals
    rename_i heq
    exact heq.1.symm

theorem qpDecodeCore_cons (c : Char) (rest : List Char) (hc : c ≠ '=') :
    qpDecodeCore (c :: rest) = c :: qpDecodeCore rest := by
  rw [qpDecodeCore.eq_def]
  split <;> simp_all

theorem qpDecodeCore_esc (a b : Char) (rest : List Char) (x y : Nat)
    (ha : hexVal a = some x) (hb : hexVal b = some y) :
    qpDecodeCore ('=' :: a :: b :: rest) = Char.ofNat (16 * x + y) :: qpDecodeCore rest := by
  rw [qpDecodeCore.eq_def]
  split
  · simp_all
  · rename_i a' b' rest' heq
    injection heq with h1 heq; injection heq with h2 heq; injection heq with h3 h4
    subst h2; subst h3; subst h4
    rw [ha, hb]
  · rename_i hno heq
    injection heq with h1 h2
    exact absurd h2.symm (hno a b rest h1.symm)

theorem qpStripSoft_encoded (cs : List Char) (hascii : ∀ c ∈ cs, c.toNat < 128) :
    qpStripSoft ((cs.map qpEncodeChar).flatten) = (cs.map qpEncodeChar).flatten := by
  induction cs with
  | nil => rfl
  | cons c rest ih =>
      have hc := hascii c (by simp)
      have ihr := ih (fun c hc => hascii c (by simp [hc]))
      simp only [List.map_cons, List.flatten_cons]
      by_cases hlit : 33 ≤ c.toNat ∧ c.toNat ≤ 126 ∧ c.toNat ≠ 61
      · have hce : c ≠ '=' := by
          intro h; exact hlit.2.2 (by rw [h]; rfl)
        rw [show qpEncodeChar c = [c] from by simp [qpEncodeChar, hlit]]
        simpa [qpStripSoft_cons c _ hce] using ihr
      · rw [show qpEncodeChar c = ['=', hexDigitU (c.toNat / 16), hexDigitU (c.toNat % 16)]
            from by simp [qpEncodeChar, hlit]]
        have hd1 := hexDigit_facts (c.toNat / 16) (by omega)
        have hd2 := hexDigit_facts (c.toNat % 16) (by omega)
        simp only [List.cons_append, List.nil_append]
        rw [qpStripSoft_eq_cons _ _ hd1.2.1 hd1.2.2.1,
            qpStripSoft_cons _ _ hd1.2.2.2,
            qpStripSoft_cons _ _ hd2.2.2.2]
        simpa using ihr

theorem qpDecodeCore_encoded (cs : List Char) (hascii : ∀ c ∈ cs, c.toNat < 128) :
    qpDecodeCore ((cs.map qpEncodeChar).flatten) = cs := by
  induction cs with
  | nil => rfl
  | cons c rest ih =>
      have hc := hascii c (by simp)
      have ihr := ih (fun c hc => hascii c (by simp [hc]))
      simp only [List.map_cons, List.flatten_cons]
      by_cases hlit : 33 ≤ c.toNat ∧ c.toNat ≤ 126 ∧ c.toNat ≠ 61
      · have hce : c ≠ '=' := by
          intro h; exact hlit.2.2 (by rw [h]; rfl)
        rw [show qpEncodeChar c = [c] from by simp [qpEncodeChar, hlit]]
        simpa [qpDecodeCore_cons c _ hce] using ihr
      · rw [show qpEncodeChar c = ['=', hexDigitU (c.toNat / 16), hexDigitU (c.toNat % 16)]
            from by simp [qpEncodeChar, hlit]]
        have hd1 := hexDigit_facts (c.toNat / 16) (by omega)
        have hd2 := hexDigit_facts (c.toNat % 16) (by omega)
        simp only [List.cons_append, List.nil_append]
        rw [qpDecodeCore_esc _ _ _ _ _ hd1.1 hd2.1, Nat.div_add_mod, Char.ofNat_toNat, ihr]

/-- C8: the body transfer-encoding decoder returns its input unchanged for
every Content-Transfer-Encoding value other than quoted-printable
case-insensitively, and for quoted-printable it inverts quoted-printable
encoding: for every ASCII payload, encoding the string and decoding it via
the extractor reproduces the original string. -/
theorem decode_content_roundtrip :
    (∀ content transferEncoding : String,
        lowerStr transferEncoding ≠ "quoted-printable" →
        decodeContent content transferEncoding = content)
    ∧ (∀ s : String, allAscii s = true →
        decodeContent (qpEncode s) "quoted-printable" = s) := by
  constructor
  · intro content te h
    simp [decodeContent, h]
  · intro s h
    obtain ⟨cs⟩ := s
    have hascii : ∀ c ∈ cs, c.toNat < 128 := by
      simpa [allAscii, List.all_eq_true] using h
    simp only [decodeContent]
    rw [if_pos (by decide)]
    simp only [qpEncode, qpDecode]
    rw [qpStripSoft_encoded cs hascii, qpDecodeCore_encoded cs hascii]

/-- Closed instance of the C8 theorem: a 7bit transfer encoding passes
through, and an ASCII string with an equals sign, spaces and punctuation
survives the quoted-printable round trip. -/
theorem decode_content_roundtrip_witness :
    lowerStr "7bit" ≠ "quoted-printable"
    ∧ decodeContent "abc" "7bit" = "abc"
    ∧ allAscii "Hello = QP! " = true
    ∧ decodeContent (qpEncode "Hello = QP! ") "quoted-printable" = "Hello = QP! " :=
  ⟨by decide, decode_content_roundtrip.1 "abc" "7bit" (by decide),
   by decide, decode_content_roundtrip.2 "Hello = QP! " (by decide)⟩

/-! ### C2 -/

theorem stepPart_fst (p : MimePart) (h t : String)
    (hp : discoveredHTML p = false) : (stepPart p h t).1 = h := by
  cases p with
  | leaf mt cte content =>
      simp only [discoveredHTML, decide_eq_false_iff_not] at hp
      rw [stepPart]
      rw [if_neg hp]
      split_ifs <;> rfl
  | multi children =>
      simp only [discoveredHTML] at hp
      rw [stepPart]
      rw [if_neg (by simp [hp])]
      split_ifs <;> rfl

theorem stepPart_snd (p : MimePart) (h t : String)
    (hp : isPlainLeaf p = false) (ht : t ≠ "") : (stepPart p h t).2 = t := by
  cases p with
  | leaf mt cte content =>
      simp only [isPlainLeaf, decide_eq_false_iff_not] at hp
      rw [stepPart]
      split_ifs <;> first | rfl | (exfalso; exact hp (by assumption)) | (exfalso; exact ht (by assumption))
  | multi children =>
      rw [stepPart]
      split_ifs <;> first | rfl | (exfalso; exact ht (by assumption))

theorem foldParts_fst (parts : List MimePart) (h t : String)
    (hp : ∀ p ∈ parts, discoveredHTML p = false) : (foldParts parts h t).1 = h := by
  induction parts generalizing h t with
  | nil => rw [foldParts]
  | cons p rest ih =>
      rw [foldParts]
      rw [stepPart_fst p h t (hp p (by simp))]
      exact ih h _ (fun q hq => hp q (by simp [hq]))

theorem foldParts_snd (parts : List MimePart) (h t : String)
    (hp : ∀ p ∈ parts, isPlainLeaf p = false) (ht : t ≠ "") :
    (foldParts parts h t).2 = t := by
  induction parts generalizing h t with
  | nil => rw [foldParts]
  | cons p rest ih =>
      rw [foldParts]
      rw [stepPart_snd p h t (hp p (by simp)) ht]
      exact ih _ t (fun q hq => hp q (by simp [hq])) ht

theorem foldParts_append (l₁ l₂ : List MimePart) (h t : String) :
    foldParts (l₁ ++ l₂) h t
      = foldParts l₂ (foldParts l₁ h t).1 (foldParts l₁ h t).2 := by
  induction l₁ generalizing h t with
  | nil => rw [foldParts]; rfl
  | cons p rest ih =>
      rw [List.cons_append, foldParts, ih]
      rw [show foldParts (p :: rest) h t
            = foldParts rest (stepPart p h t).1 (stepPart p h t).2 from by rw [foldParts]]

/-- C2 counterexample: a multipart message with two declared text/plain
siblings and no HTML anywhere returns the second (last) text part, not the
first one the claim promises: the loop overwrites the text accumulator on
every declared text/plain part. -/
theorem multipart_two_plain_returns_last :
    parseMultipart [.leaf "text/plain" "" "A", .leaf "text/plain" "" "B"] = "B"
    ∧ ("B" : String) ≠ "A" := by
  constructor
  · rw [parseMultipart, foldParts, foldParts, foldParts]
    simp only [stepPart]
    decide
  · decide

/-- C2 amended: for every multipart message in which no HTML part is
discovered (neither a declared text/html sibling nor a nested-multipart
result sniffed as HTML), the extractor returns the decoded content of the
last declared text/plain sibling, provided that decode is non-empty; a
nested-multipart non-HTML result only fills the text slot while it is still
empty, and every declared text/plain sibling overwrites it. -/
theorem multipart_no_html_last_plain (pre post : List MimePart) (cte c : String)
    (hnoHTML : ∀ p ∈ pre ++ MimePart.leaf "text/plain" cte c :: post,
        discoveredHTML p = false)
    (hlast : ∀ p ∈ post, isPlainLeaf p = false)
    (hne : decodeContent c cte ≠ "") :
    parseMultipart (pre ++ MimePart.leaf "text/plain" cte c :: post)
      = decodeContent c cte := by
  have hpre : ∀ p ∈ pre, discoveredHTML p = false := by
    intro p hp; exact hnoHTML p (by simp [hp])
  have hpost : ∀ p ∈ post, discoveredHTML p = false := by
    intro p hp; exact hnoHTML p (by simp [hp])
  have hstep : stepPart (.leaf "text/plain" cte c)
      (foldParts pre "" "").1 (foldParts pre "" "").2
      = ((foldParts pre "" "").1, decodeContent c cte) := by
    rw [stepPart]
    rw [if_neg (by decide), if_pos rfl]
  rw [parseMultipart, foldParts_append, foldParts, hstep]
  have hfst : (foldParts post (foldParts pre "" "").1 (decodeContent c cte)).1 = "" := by
    rw [foldParts_fst post _ _ hpost, foldParts_fst pre _ _ hpre]
  have hsnd : (foldParts post (foldParts pre "" "").1 (decodeContent c cte)).2
      = decodeContent c cte := foldParts_snd post _ _ hlast hne
  rw [hfst, hsnd]
  simp

/-- Closed instance of the C2 amended theorem at a two-part message: the
second text/plain sibling is returned. -/
theorem multipart_no_html_last_plain_witness :
    (∀ p ∈ [MimePart.leaf "text/plain" "" "A", MimePart.leaf "text/plain" "" "B"],
        discoveredHTML p = false)
    ∧ decodeContent "B" "" ≠ ""
    ∧ parseMultipart [MimePart.leaf "text/plain" "" "A", MimePart.leaf "text/plain" "" "B"]
        = decodeContent "B" "" :=
  ⟨by decide, by decide,
   multipart_no_html_last_plain [MimePart.leaf "text/plain" "" "A"] [] "" "B"
     (by decide) (by decide) (by decide)⟩

/-! ### C5 -/

/-- C5: every WordFreq entry getTopWords emits satisfies percent equal to
count divided by the class email total times 100, with count above two; the
emitted list is sorted non-increasing by percent and holds at most one
hundred entries; and, given that every map count is at most the class total
(which the aggregation guarantees), every percent lies in the interval from
0 exclusive to 100 inclusive. -/
theorem getTopWords_invariants (counts : List (String × Int)) (total : Int)
    (hle : ∀ p ∈ counts, p.2 ≤ total) :
    (∀ wf ∈ getTopWords counts total,
        wf.percent = (wf.count : ℚ) / (total : ℚ) * 100 ∧ 2 < wf.count
          ∧ 0 < wf.percent ∧ wf.percent ≤ 100)
    ∧ List.Pairwise (fun a b => b.percent ≤ a.percent) (getTopWords counts total)
    ∧ (getTopWords counts total).length ≤ 100 := by
  by_cases htot : total = 0
  · simp [getTopWords, htot]
  · refine ⟨?_, ?_, ?_⟩
    · intro wf hwf
      simp only [getTopWords] at hwf
      rw [if_neg htot] at hwf
      have hmem := List.mem_of_mem_take hwf
      have hmem2 := (List.mergeSort_perm _ _).mem_iff.mp hmem
      obtain ⟨p, hpf, rfl⟩ := List.mem_map.mp hmem2
      obtain ⟨hpc, hp2b⟩ := List.mem_filter.mp hpf
      simp only [decide_eq_true_eq] at hp2b
      have hple : p.2 ≤ total := hle p hpc
      have htotpos : (0 : Int) < total := by omega
      have htotQ : (0 : ℚ) < (total : ℚ) := by exact_mod_cast htotpos
      have hcQ : (0 : ℚ) < (p.2 : ℚ) := by exact_mod_cast (show (0 : Int) < p.2 by omega)
      have hcleQ : (p.2 : ℚ) ≤ (total : ℚ) := by exact_mod_cast hple
      refine ⟨rfl, hp2b, ?_, ?_⟩
      · exact mul_pos (div_pos hcQ htotQ) (by norm_num)
      · have h1 : (p.2 : ℚ) / (total : ℚ) ≤ 1 := by
          rw [div_le_one htotQ]; exact hcleQ
        nlinarith
    · simp only [getTopWords]
      rw [if_neg htot]
      apply List.Pairwise.sublist (List.take_sublist _ _)
      have hs := @List.sorted_mergeSort WordFreq
        (fun a b => decide (b.percent ≤ a.percent))
        (fun a b c hab hbc => by
          simp only [decide_eq_true_eq] at *
          exact le_trans hbc hab)
        (fun a b => by
          simp only [Bool.or_eq_true, decide_eq_true_eq]
          exact le_total b.percent a.percent)
        ((counts.filter (fun p => 2 < p.2)).map
          (fun p => { word := p.1, count := p.2,
                      percent := (p.2 : ℚ) / (total : ℚ) * 100 : WordFreq }))
      exact hs.imp (by intro a b hab; simpa using hab)
    · simp only [getTopWords]
      rw [if_neg htot]
      simp [List.length_take]

/-- Closed instance of the C5 theorem at a three-entry frequency map with
class total 10. -/
theorem getTopWords_invariants_witness :
    (∀ p ∈ ([("free", (5 : Int)), ("account", 4), ("the", 1)] : List (String × Int)),
        p.2 ≤ 10)
    ∧ ((∀ wf ∈ getTopWords [("free", 5), ("account", 4), ("the", 1)] 10,
          wf.percent = (wf.count : ℚ) / ((10 : Int) : ℚ) * 100 ∧ 2 < wf.count
            ∧ 0 < wf.percent ∧ wf.percent ≤ 100)
        ∧ List.Pairwise (fun a b => b.percent ≤ a.percent)
            (getTopWords [("free", 5), ("account", 4), ("the", 1)] 10)
        ∧ (getTopWords [("free", 5), ("account", 4), ("the", 1)] 10).length ≤ 100) :=
  ⟨by decide, getTopWords_invariants [("free", 5), ("account", 4), ("the", 1)] 10 (by decide)⟩

/-! ### C6 -/

theorem bumpDF_le (m : String → Nat) (ws : List String) (x : String) :
    bumpDF m ws x ≤ m x + 1 := by
  unfold bumpDF
  split_ifs <;> omega

theorem csvStep_counts (dict : List String) (cols : CsvCols) (st : CsvAgg)
    (r : List String) :
    (csvStep dict cols st r).safeCount + (csvStep dict cols st r).scamCount
      = st.safeCount + st.scamCount + (if csvRowValid cols r then 1 else 0) := by
  unfold csvStep
  split_ifs <;> simp_all <;> omega

theorem csvStep_inv (dict : List String) (cols : CsvCols) (st : CsvAgg)
    (r : List String)
    (hinv : ∀ w, st.safeBodyDF w ≤ st.safeCount ∧ st.scamBodyDF w ≤ st.scamCount
        ∧ st.safeSubjDF w ≤ st.safeCount ∧ st.scamSubjDF w ≤ st.scamCount) :
    ∀ w, (csvStep dict cols st r).safeBodyDF w ≤ (csvStep dict cols st r).safeCount
      ∧ (csvStep dict cols st r).scamBodyDF w ≤ (csvStep dict cols st r).scamCount
      ∧ (csvStep dict cols st r).safeSubjDF w ≤ (csvStep dict cols st r).safeCount
      ∧ (csvStep dict cols st r).scamSubjDF w ≤ (csvStep dict cols st r).scamCount := by
  intro w
  obtain ⟨h1, h2, h3, h4⟩ := hinv w
  unfold csvStep
  split_ifs <;> refine ⟨?_, ?_, ?_, ?_⟩ <;> try simp
  all_goals
    first
      | omega
      | exact le_trans (bumpDF_le _ _ _) (by omega)

theorem csvFold_counts (dict : List String) (cols : CsvCols) :
    ∀ (rows : List (List String)) (st : CsvAgg),
      ((rows.foldl (csvStep dict cols) st).safeCount
          + (rows.foldl (csvStep dict cols) st).scamCount)
        = st.safeCount + st.scamCount + (rows.filter (csvRowValid cols)).length := by
  intro rows
  induction rows with
  | nil => intro st; simp
  | cons r rest ih =>
      intro st
      rw [List.foldl_cons, ih (csvStep dict cols st r), csvStep_counts, List.filter_cons]
      split_ifs <;> simp <;> omega

theorem csvFold_inv (dict : List String) (cols : CsvCols) :
    ∀ (rows : List (List String)) (st : CsvAgg),
      (∀ w, st.safeBodyDF w ≤ st.safeCount ∧ st.scamBodyDF w ≤ st.scamCount
          ∧ st.safeSubjDF w ≤ st.safeCount ∧ st.scamSubjDF w ≤ st.scamCount) →
      ∀ w, (rows.foldl (csvStep dict cols) st).safeBodyDF w
            ≤ (rows.foldl (csvStep dict cols) st).safeCount
        ∧ (rows.foldl (csvStep dict cols) st).scamBodyDF w
            ≤ (rows.foldl (csvStep dict cols) st).scamCount
        ∧ (rows.foldl (csvStep dict cols) st).safeSubjDF w
            ≤ (rows.foldl (csvStep dict cols) st).safeCount
        ∧ (rows.foldl (csvStep dict cols) st).scamSubjDF w
            ≤ (rows.foldl (csvStep dict cols) st).scamCount := by
  intro rows
  induction rows with
  | nil => intro st h; exact h
  | cons r rest ih =>
      intro st h
      rw [List.foldl_cons]
      exact ih (csvStep dict cols st r) (csvStep_inv dict cols st r h)

theorem jsonStep_counts (dict : List String) (st : JsonAgg) (e : JSONEntry) :
    (jsonStep dict st e).safeCount + (jsonStep dict st e).scamCount
      = st.safeCount + st.scamCount + 1 := by
  unfold jsonStep
  split_ifs <;> simp_all <;> omega

theorem jsonStep_inv (dict : List String) (st : JsonAgg) (e : JSONEntry)
    (hinv : ∀ w, st.safeDF w ≤ st.safeCount ∧ st.scamDF w ≤ st.scamCount) :
    ∀ w, (jsonStep dict st e).safeDF w ≤ (jsonStep dict st e).safeCount
      ∧ (jsonStep dict st e).scamDF w ≤ (jsonStep dict st e).scamCount := by
  intro w
  obtain ⟨h1, h2⟩ := hinv w
  unfold jsonStep
  split_ifs <;> refine ⟨?_, ?_⟩ <;> try simp
  all_goals
    first
      | omega
      | exact le_trans (bumpDF_le _ _ _) (by omega)

theorem jsonFold_counts (dict : List String) :
    ∀ (entries : List JSONEntry) (st : JsonAgg),
      (entries.foldl (jsonStep dict) st).safeCount
          + (entries.foldl (jsonStep dict) st).scamCount
        = st.safeCount + st.scamCount + entries.length := by
  intro entries
  induction entries with
  | nil => intro st; simp
  | cons e rest ih =>
      intro st
      rw [List.foldl_cons, ih (jsonStep dict st e), jsonStep_counts]
      simp
      omega

theorem jsonFold_inv (dict : List String) :
    ∀ (entries : List JSONEntry) (st : JsonAgg),
      (∀ w, st.safeDF w ≤ st.safeCount ∧ st.scamDF w ≤ st.scamCount) →
      ∀ w, (entries.foldl (jsonStep dict) st).safeDF w
            ≤ (entries.foldl (jsonStep dict) st).safeCount
        ∧ (entries.foldl (jsonStep dict) st).scamDF w
            ≤ (entries.foldl (jsonStep dict) st).scamCount := by
  intro entries
  induction entries with
  | nil => intro st h; exact h
  | cons e rest ih =>
      intro st h
      rw [List.foldl_cons]
      exact ih (jsonStep dict st e) (jsonStep_inv dict st e h)

/-- C6: after any trainer run, on either ingestion path, the safe and scam
total email counts sum to the number of valid non-skipped rows ingested
(every counted row is attributed to exactly one class), and every word's
per-class document-frequency count is at most that class's email total (a
word is counted at most once per document). -/
theorem trainer_aggregation_partition (dict : List String) (cols : CsvCols)
    (rows : List (List String)) (entries : List JSONEntry) :
    ((csvAggregate dict cols rows).safeCount + (csvAggregate dict cols rows).scamCount
        = (rows.filter (csvRowValid cols)).length
      ∧ ∀ w : String,
          (csvAggregate dict cols rows).safeBodyDF w ≤ (csvAggregate dict cols rows).safeCount
          ∧ (csvAggregate dict cols rows).scamBodyDF w ≤ (csvAggregate dict cols rows).scamCount
          ∧ (csvAggregate dict cols rows).safeSubjDF w ≤ (csvAggregate dict cols rows).safeCount
          ∧ (csvAggregate dict cols rows).scamSubjDF w ≤ (csvAggregate dict cols rows).scamCount)
    ∧ ((jsonAggregate dict entries).safeCount + (jsonAggregate dict entries).scamCount
        = entries.length
      ∧ ∀ w : String,
          (jsonAggregate dict entries).safeDF w ≤ (jsonAggregate dict entries).safeCount
          ∧ (jsonAggregate dict entries).scamDF w ≤ (jsonAggregate dict entries).scamCount) := by
  refine ⟨⟨?_, ?_⟩, ⟨?_, ?_⟩⟩
  · have h := csvFold_counts dict cols rows {}
    simpa [csvAggregate] using h
  · intro w
    exact csvFold_inv dict cols rows {} (fun w => by simp) w
  · have h := jsonFold_counts dict entries {}
    simpa [jsonAggregate] using h
  · intro w
    exact jsonFold_inv dict entries {} (fun w => by simp) w

end Phish
